/-
  Verification of the voxel world storage and mutation subsystem
  (coordinate/container math, map edit events, block store access,
  bulk voxel-manipulator editing) against its specification.

  Machine s32 arithmetic is embedded as Int with C semantics:
  C integer division truncates toward zero, which is Int.tdiv;
  the bitwise AND on a two's-complement s32 is embedded by taking
  the low 32 bits (p % 2^32) before the Nat-level AND.
-/
import Mathlib

/-! ## Coordinate / container math, from src/util/numeric.h -/

/-- From numeric.h: `rangelim(d, min, max)` clamps `d` into `[min, max]`. -/
def rangelim (d mn mx : Int) : Int :=
  if d < mn then mn else if d > mx then mx else d

/-- From numeric.h: `getContainerPos(p, d) = (p >= 0 ? p : p - d + 1) / d`
with C truncating division on s32. -/
def getContainerPos (p d : Int) : Int :=
  Int.tdiv (if 0 ≤ p then p else p - d + 1) d

/-- From numeric.h: `getContainerPosWithOffset(p, d)` returns the container
`(p >= 0 ? p : p - d + 1) / d` and the offset `p & (d - 1)`, the AND taken
on the two's-complement representation of the s32 `p`. -/
def getContainerPosWithOffset (p d : Int) : Int × Int :=
  (Int.tdiv (if 0 ≤ p then p else p - d + 1) d,
   Int.ofNat ((p % 2 ^ 32).toNat &&& (d - 1).toNat))

/-! ## Data model: nodes, blocks, the block store

Types below are modelled from the spec where their headers are not part of
the excerpt (mapnode.h, mapblock.h): a node is a content id plus two
parameter bytes, a block is an edge-16 cube of nodes with a dirty flag,
and the block store maps block positions to loaded blocks. -/

/-- Modelled from the spec: the ignore placeholder content id
("unknown/unloaded", never written intentionally except as a placeholder). -/
def CONTENT_IGNORE : Nat := 127

/-- Modelled from the spec: the transparent/absent ("air") content id. -/
def CONTENT_AIR : Nat := 126

/-- Modelled from the spec: a node is a fixed-size value, a content
identifier plus per-node parameter bytes. -/
structure MapNode where
  content : Nat
  param1 : Nat
  param2 : Nat
deriving DecidableEq

/-- The node value a traversal produces for an unloaded position:
`MapNode(CONTENT_IGNORE)` in the source. -/
def ignoreNode : MapNode := ⟨CONTENT_IGNORE, 0, 0⟩

/-- A 3D integer vector (`v3size` in the source). -/
structure V3 where
  X : Int
  Y : Int
  Z : Int
deriving DecidableEq

/-- The compile-time block edge length; 16 in this repository. -/
def MAP_BLOCKSIZE : Int := 16

/-- Modelled from the spec (mapblock.h is not in the excerpt):
`getNodeBlockPos(p) = getContainerPos(p, MAP_BLOCKSIZE)` per axis. -/
def getNodeBlockPos (p : V3) : V3 :=
  ⟨getContainerPos p.X MAP_BLOCKSIZE,
   getContainerPos p.Y MAP_BLOCKSIZE,
   getContainerPos p.Z MAP_BLOCKSIZE⟩

/-- Modelled from the spec: a block is a fixed-edge cube of nodes (indexed
by in-block offsets) plus a dirty flag consumed by the next save pass. -/
structure MapBlock where
  data : Int → Int → Int → MapNode
  modified : Bool

/-- The block store: loaded blocks addressed by block position.  The
two-level sector/block split and the sector cache of the source are an
access-path optimization; the store they implement is this map. -/
structure MapState where
  blocks : V3 → Option MapBlock

/-- Modelled from the spec and the header contract in map.h
("Returns NULL if not found"): `getBlockNoCreateNoEx` is the plain
block store lookup. -/
def getBlockNoCreateNoEx (m : MapState) (p : V3) : Option MapBlock :=
  m.blocks p

/-- From map.h (inline in the source): the base class `Map::emergeBlock`
just returns `getBlockNoCreateNoEx(p)`, for either value of
`create_blank`. -/
def Map.emergeBlock (m : MapState) (p : V3) (create_blank : Bool) : Option MapBlock :=
  getBlockNoCreateNoEx m p

/-- Content of the node stored at a node position, per the map.h contract
for `getNode` ("Returns a CONTENT_IGNORE node if not found"): the node in
the containing loaded block at the in-block offset, else the ignore node. -/
def mapNodeAt (m : MapState) (p : V3) : MapNode :=
  let bp := getNodeBlockPos p
  match getBlockNoCreateNoEx m bp with
  | some b => b.data (p.X - bp.X * MAP_BLOCKSIZE) (p.Y - bp.Y * MAP_BLOCKSIZE)
      (p.Z - bp.Z * MAP_BLOCKSIZE)
  | none => ignoreNode

/-- Modelled from the spec: `Map::setNode(p, n)` (implementation not in the
excerpt) fails with a position-not-loaded condition if the containing block
is absent; otherwise writes the node into the block and marks the block
modified.  Returns (success, resulting state). -/
def Map.setNode (m : MapState) (p : V3) (n : MapNode) : Bool × MapState :=
  let bp := getNodeBlockPos p
  match m.blocks bp with
  | none => (false, m)
  | some b =>
    let b2 : MapBlock :=
      ⟨fun x y z =>
        if x = p.X - bp.X * MAP_BLOCKSIZE ∧ y = p.Y - bp.Y * MAP_BLOCKSIZE ∧
            z = p.Z - bp.Z * MAP_BLOCKSIZE then n
        else b.data x y z, true⟩
    (true, ⟨fun q => if q = bp then some b2 else m.blocks q⟩)

/-! ## MapEditEvent, from map.h -/

/-- From map.h. -/
inductive MapEditEventType where
  | MEET_ADDNODE
  | MEET_REMOVENODE
  | MEET_SWAPNODE
  | MEET_BLOCK_NODE_METADATA_CHANGED
  | MEET_OTHER
deriving DecidableEq

/-- From map.h: the edit event value.  `modified_blocks` is a vector that
represents a set. -/
structure MapEditEvent where
  type : MapEditEventType := .MEET_OTHER
  p : V3 := ⟨0, 0, 0⟩
  n : MapNode := ⟨CONTENT_AIR, 0, 0⟩
  modified_blocks : List V3 := []
  is_private_change : Bool := false

/-- From map.h: sets the event's position and pushes the block containing
it onto `modified_blocks`; asserts `modified_blocks.empty()` first (only
meant for initialization, once). -/
def MapEditEvent.setPositionModified (ev : MapEditEvent) (pos : V3) : MapEditEvent :=
  { ev with p := pos, modified_blocks := ev.modified_blocks ++ [getNodeBlockPos pos] }

/-- From map.h: pushes the key of every entry of the supplied
position-keyed block map onto `modified_blocks`; asserts
`modified_blocks.empty()` first. -/
def MapEditEvent.setModifiedBlocks {β : Type} (ev : MapEditEvent)
    (blocks : List (V3 × β)) : MapEditEvent :=
  { ev with modified_blocks := ev.modified_blocks ++ blocks.map Prod.fst }

/-! ## Event receivers and dispatch

map.h stores the observers as `std::set<MapEventReceiver*> m_event_receivers`.
A receiver is identified here by its pointer value, a `Nat`; the set is
embedded as a strictly sorted list, which is exactly the state and the
iteration order a `std::set` provides. -/

/-- Ordered-set insertion: the embedding of `std::set::insert` on the
receiver set (keys are pointer values; duplicates are not added). -/
def setInsert (x : Nat) : List Nat → List Nat
  | [] => [x]
  | a :: as =>
    if x < a then x :: a :: as
    else if x = a then a :: as
    else a :: setInsert x as

/-- From map.h / modelled from the spec: `Map::addEventReceiver` inserts
the receiver into `m_event_receivers`. -/
def Map.addEventReceiver (receivers : List Nat) (r : Nat) : List Nat :=
  setInsert r receivers

/-- Registers a list of receivers one by one, in the given order, starting
from the empty observer set. -/
def registerAll (regs : List Nat) : List Nat :=
  regs.foldl Map.addEventReceiver []

/-- Modelled from the spec: `Map::dispatchEvent` (implementation not in the
excerpt) iterates `m_event_receivers` and synchronously invokes
`onMapEditEvent` on each element; iterating a `std::set` yields its
elements in ascending key order.  Returns the invocation order. -/
def Map.dispatchEvent (receivers : List Nat) (ev : MapEditEvent) : List Nat :=
  receivers

/-- Modelled from the spec: `Map::addNodeWithEvent` (implementation not in
the excerpt) performs the node update and, on success, constructs a
MapEditEvent for the position and dispatches it; on failure no event is
dispatched.  Returns (success, resulting state, invocation order). -/
def Map.addNodeWithEvent (m : MapState) (receivers : List Nat) (p : V3)
    (n : MapNode) : Bool × MapState × List Nat :=
  match Map.setNode m p n with
  | (false, m2) => (false, m2, [])
  | (true, m2) =>
    let ev := ({ type := .MEET_ADDNODE, n := n } : MapEditEvent).setPositionModified p
    (true, m2, Map.dispatchEvent receivers ev)

/-! ## forEachNodeInArea, from map.h -/

/-- The inclusive integer interval `[lo, hi]` as a list, the unrolling of a
C `for` loop from `lo` to `hi`. -/
def intRange (lo hi : Int) : List Int :=
  (List.range (hi + 1 - lo).toNat).map (fun (i : Nat) => lo + (i : Int))

/-- Early-exit iteration: the elements a loop body is invoked on when the
body requests termination on the first element for which `f` is false
(that element is still invoked, nothing after it is). -/
def takeThrough {α : Type} (f : α → Bool) : List α → List α
  | [] => []
  | a :: as => if f a then a :: takeThrough f as else [a]

/-- From map.h `Map::forEachNodeInArea`, inner part: the (position, node)
pairs produced inside the block `(bx, b_y, bz)` — the three node loops with
their `rangelim`-clamped bounds, fetching the block once and producing
`MapNode(CONTENT_IGNORE)` when it is not loaded. -/
def blockCells (m : MapState) (minp maxp : V3) (bx b_y bz : Int) :
    List (V3 × MapNode) :=
  let block := getBlockNoCreateNoEx m ⟨bx, b_y, bz⟩
  let basep : V3 := ⟨bx * MAP_BLOCKSIZE, b_y * MAP_BLOCKSIZE, bz * MAP_BLOCKSIZE⟩
  (intRange (rangelim (minp.Z - basep.Z) 0 (MAP_BLOCKSIZE - 1))
            (rangelim (maxp.Z - basep.Z) 0 (MAP_BLOCKSIZE - 1))).flatMap fun zb =>
  (intRange (rangelim (minp.Y - basep.Y) 0 (MAP_BLOCKSIZE - 1))
            (rangelim (maxp.Y - basep.Y) 0 (MAP_BLOCKSIZE - 1))).flatMap fun yb =>
  (intRange (rangelim (minp.X - basep.X) 0 (MAP_BLOCKSIZE - 1))
            (rangelim (maxp.X - basep.X) 0 (MAP_BLOCKSIZE - 1))).map fun xb =>
    (⟨basep.X + xb, basep.Y + yb, basep.Z + zb⟩,
     match block with
     | some b => b.data xb yb zb
     | none => ignoreNode)

/-- From map.h `Map::forEachNodeInArea`: the full (position, node)
sequence the traversal produces when the visitor never stops it — block
loops over Z, X, Y (Y innermost), node loops inside each block. -/
def forEachSeq (m : MapState) (minp maxp : V3) : List (V3 × MapNode) :=
  let bpmin := getNodeBlockPos minp
  let bpmax := getNodeBlockPos maxp
  (intRange bpmin.Z bpmax.Z).flatMap fun bz =>
  (intRange bpmin.X bpmax.X).flatMap fun bx =>
  (intRange bpmin.Y bpmax.Y).flatMap fun b_y =>
    blockCells m minp maxp bx b_y bz

/-- From map.h: `Map::forEachNodeInArea(minp, maxp, func)` — the sequence
of (position, node) pairs the callback is invoked on: the traversal runs
through `forEachSeq` and returns from the whole function as soon as the
callback returns false. -/
def Map.forEachNodeInArea (m : MapState) (minp maxp : V3)
    (f : V3 → MapNode → Bool) : List (V3 × MapNode) :=
  takeThrough (fun pr => f pr.1 pr.2) (forEachSeq m minp maxp)

/-- Membership in the inclusive box `[minp, maxp]`. -/
def inBox (minp maxp p : V3) : Prop :=
  minp.X ≤ p.X ∧ p.X ≤ maxp.X ∧ minp.Y ≤ p.Y ∧ p.Y ≤ maxp.Y ∧
  minp.Z ≤ p.Z ∧ p.Z ≤ maxp.Z

instance (minp maxp p : V3) : Decidable (inBox minp maxp p) := by
  unfold inBox; infer_instance

/-! ## ServerMap::emergeBlock -/

/-- Inserts (or replaces) a loaded block at a block position. -/
def insertBlock (m : MapState) (p : V3) (b : MapBlock) : MapState :=
  ⟨fun q => if q = p then some b else m.blocks q⟩

/-- Modelled from the spec: the blank block `emergeBlock` synthesizes on
load failure when `create_blank` is true — content ignore throughout,
marked Dirty. -/
def blankBlock : MapBlock := ⟨fun _ _ _ => ignoreNode, true⟩

/-- Modelled from the spec: `ServerMap::emergeBlock(p, create_blank)`
(implementation not in the excerpt): if the block is loaded, return it;
else attempt a disk load through the Persistence Layer (`disk`, the opaque
keyed load of the spec); on load success insert the loaded block as Clean
and return it; on load failure, if `create_blank`, insert and return a
blank ignore-filled block marked Dirty, else return none.  No procedural
generation is consulted. -/
def ServerMap.emergeBlock (m : MapState) (disk : V3 → Option (Int → Int → Int → MapNode))
    (p : V3) (create_blank : Bool) : Option MapBlock × MapState :=
  match getBlockNoCreateNoEx m p with
  | some b => (some b, m)
  | none =>
    match disk p with
    | some d => (some ⟨d, false⟩, insertBlock m p ⟨d, false⟩)
    | none =>
      if create_blank then (some blankBlock, insertBlock m p blankBlock)
      else (none, m)

/-! ## MMVManip, from map.h (fields) with operations modelled from the spec -/

/-- From map.h: `MMVManip` is a voxel manipulator window with a backing
node buffer and per-node flags over `[pmin, pmax]`, per-block bookkeeping
`m_loaded_blocks`, a dirty marker, and a possibly-null map association
`m_map`. -/
structure MMVManip where
  pmin : V3
  pmax : V3
  data : V3 → MapNode
  flags : V3 → Nat
  m_loaded_blocks : List (V3 × Nat)
  m_is_dirty : Bool
  m_map : Option MapState

/-- From map.h (inline in the source): `isOrphan() { return !m_map; }`. -/
def MMVManip.isOrphan (vm : MMVManip) : Bool := vm.m_map.isNone

/-- Modelled from the spec: `clone()` deep-copies the buffer, flags and
per-block bookkeeping but drops the Map association. -/
def MMVManip.clone (vm : MMVManip) : MMVManip := { vm with m_map := none }

/-- Modelled from the spec: `reparent(map)` reattaches the manipulator to
a map. -/
def MMVManip.reparent (vm : MMVManip) (map : MapState) : MMVManip :=
  { vm with m_map := some map }

/-- Block-data-inexistent flag value, from map.h
(`VMANIP_BLOCK_DATA_INEXIST`). -/
def VMANIP_BLOCK_DATA_INEXIST : Nat := 1

/-- Whether a node position lies in the node box covered by a block range. -/
def inBlockRange (bmin bmax q : V3) : Prop :=
  inBox ⟨bmin.X * MAP_BLOCKSIZE, bmin.Y * MAP_BLOCKSIZE, bmin.Z * MAP_BLOCKSIZE⟩
        ⟨bmax.X * MAP_BLOCKSIZE + (MAP_BLOCKSIZE - 1),
         bmax.Y * MAP_BLOCKSIZE + (MAP_BLOCKSIZE - 1),
         bmax.Z * MAP_BLOCKSIZE + (MAP_BLOCKSIZE - 1)⟩ q

instance (bmin bmax q : V3) : Decidable (inBlockRange bmin bmax q) := by
  unfold inBlockRange; infer_instance

/-- Modelled from the spec: `initialEmerge(blockpos_min, blockpos_max)`
(implementation not in the excerpt) is a programming-contract violation on
an orphan (rejected, `none`); otherwise it covers the block range, copies
each covered block's nodes from the block store, and records per block
whether its data existed (flag 0) or not (`VMANIP_BLOCK_DATA_INEXIST`,
leaving ignore content there). -/
def MMVManip.initialEmerge (vm : MMVManip) (blockpos_min blockpos_max : V3)
    (load_if_inexistent : Bool) : Option MMVManip :=
  match vm.m_map with
  | none => none
  | some m =>
    some { vm with
      pmin := ⟨blockpos_min.X * MAP_BLOCKSIZE, blockpos_min.Y * MAP_BLOCKSIZE,
               blockpos_min.Z * MAP_BLOCKSIZE⟩
      pmax := ⟨blockpos_max.X * MAP_BLOCKSIZE + (MAP_BLOCKSIZE - 1),
               blockpos_max.Y * MAP_BLOCKSIZE + (MAP_BLOCKSIZE - 1),
               blockpos_max.Z * MAP_BLOCKSIZE + (MAP_BLOCKSIZE - 1)⟩
      data := fun q =>
        if inBlockRange blockpos_min blockpos_max q then mapNodeAt m q
        else vm.data q
      m_loaded_blocks :=
        (intRange blockpos_min.Z blockpos_max.Z).flatMap fun bz =>
        (intRange blockpos_min.Y blockpos_max.Y).flatMap fun b_y =>
        (intRange blockpos_min.X blockpos_max.X).map fun bx =>
          (⟨bx, b_y, bz⟩,
           match getBlockNoCreateNoEx m ⟨bx, b_y, bz⟩ with
           | some _ => 0
           | none => VMANIP_BLOCK_DATA_INEXIST) }

/-- Modelled from the spec: `blitBackAll(modified_blocks, overwrite_generated)`
(implementation not in the excerpt) is a programming-contract violation on
an orphan (rejected, `none`).  Otherwise, for every block touched by the
window: a block whose prior state was missing is created filled entirely
from the window; an existing block is overwritten node-by-node only where
`overwrite_generated` is true or the existing node was the ignore
placeholder.  Returns the updated map and the touched block positions. -/
def MMVManip.blitBackAll (vm : MMVManip) (overwrite_generated : Bool) :
    Option (MapState × List V3) :=
  match vm.m_map with
  | none => none
  | some m =>
    let touched : List V3 := vm.m_loaded_blocks.map Prod.fst
    some (⟨fun bp =>
      if bp ∈ touched then
        match m.blocks bp with
        | none => some ⟨fun x y z =>
            vm.data ⟨bp.X * MAP_BLOCKSIZE + x, bp.Y * MAP_BLOCKSIZE + y,
                     bp.Z * MAP_BLOCKSIZE + z⟩, true⟩
        | some b => some ⟨fun x y z =>
            if overwrite_generated || (b.data x y z).content = CONTENT_IGNORE then
              vm.data ⟨bp.X * MAP_BLOCKSIZE + x, bp.Y * MAP_BLOCKSIZE + y,
                       bp.Z * MAP_BLOCKSIZE + z⟩
            else b.data x y z, true⟩
      else m.blocks bp⟩, touched)

/-! ## Concrete fixtures used by witnesses -/

/-- A block store with no loaded block. -/
def emptyMapState : MapState := ⟨fun _ => none⟩

/-- A block whose every node has content 1 (not the ignore placeholder). -/
def constBlock : MapBlock := ⟨fun _ _ _ => ⟨1, 0, 0⟩, false⟩

/-- A block store in which every block position is loaded with
`constBlock`. -/
def fullMapState : MapState := ⟨fun _ => some constBlock⟩

/-- A concrete parented voxel manipulator over block (0,0,0). -/
def vmFixture : MMVManip :=
  ⟨⟨0, 0, 0⟩, ⟨15, 15, 15⟩, fun _ => ⟨2, 0, 0⟩, fun _ => 0,
   [(⟨0, 0, 0⟩, 0)], false, some fullMapState⟩

/-! ## Division helpers -/

/-- The C expression `(p >= 0 ? p : p - d + 1) / d` computes the floor
(Euclidean, for positive `d`) division `p / d`. -/
theorem getContainerPos_eq_ediv (p d : Int) (hd : 0 < d) :
    getContainerPos p d = p / d := by
  unfold getContainerPos
  by_cases hp : 0 ≤ p
  · rw [if_pos hp]
    exact Int.tdiv_eq_ediv hp hd.le
  · rw [if_neg hp]
    push_neg at hp
    have h1 : p - d + 1 = -(d - 1 - p) := by ring
    have h2 : (0 : Int) ≤ d - 1 - p := by omega
    rw [h1, Int.neg_tdiv, Int.tdiv_eq_ediv h2 hd.le]
    have h3 : d - 1 - p = (d - 1 - p % d) + (-(p / d)) * d := by
      have h4 := Int.ediv_add_emod p d
      linarith [h4]
    have h5 := Int.emod_nonneg p (ne_of_gt hd)
    have h6 := Int.emod_lt_of_pos p hd
    rw [h3, Int.add_mul_ediv_right _ _ (ne_of_gt hd),
      Int.ediv_eq_zero_of_lt (by omega) (by omega)]
    ring

/-- Bounds of Euclidean division by a positive divisor. -/
theorem ediv_bounds (p d : Int) (hd : 0 < d) :
    (p / d) * d ≤ p ∧ p < (p / d) * d + d := by
  have h1 := Int.ediv_add_emod p d
  have h2 := Int.emod_nonneg p (ne_of_gt hd)
  have h3 := Int.emod_lt_of_pos p hd
  constructor <;> nlinarith

/-- `getContainerPos` with the repository block size, in `omega`-friendly
form. -/
theorem getContainerPos_16 (p : Int) : getContainerPos p 16 = p / 16 :=
  getContainerPos_eq_ediv p 16 (by norm_num)

/-- C1: for every signed node coordinate `p` and positive edge length `d`,
`getContainerPos p d` is the true mathematical floor of `p / d`, and
equivalently `getContainerPos p d * d ≤ p < getContainerPos p d * d + d`,
including for negative `p`. -/
theorem getContainerPos_floor (p d : Int) (hd : 0 < d) :
    getContainerPos p d = Int.fdiv p d ∧
    getContainerPos p d * d ≤ p ∧ p < getContainerPos p d * d + d := by
  have he := getContainerPos_eq_ediv p d hd
  have hb := ediv_bounds p d hd
  refine ⟨?_, ?_, ?_⟩
  · rw [he, Int.fdiv_eq_ediv p hd.le]
  · rw [he]; exact hb.1
  · rw [he]; exact hb.2

/-- Witness for C1 at `p = -1`, `d = 16` (so `floor(-1/16) = -1`). -/
theorem getContainerPos_floor_witness :
    (0 : Int) < 16 ∧
    (getContainerPos (-1) 16 = Int.fdiv (-1) 16 ∧
     getContainerPos (-1) 16 * 16 ≤ -1 ∧ (-1 : Int) < getContainerPos (-1) 16 * 16 + 16) :=
  ⟨by decide, getContainerPos_floor (-1) 16 (by decide)⟩

/-- C2: for every signed `p` and power-of-two `d = 2^k` (any s32 power of
two; `k ≤ 32` suffices), `getContainerPosWithOffset p d` yields the same
container as `getContainerPos p d` and the bitmask offset equals
`p mod d`, lies in `[0, d)`, and satisfies `container * d + offset = p`. -/
theorem getContainerPosWithOffset_spec (p d : Int) (k : Nat)
    (hd : d = 2 ^ k) (hk : k ≤ 32) :
    (getContainerPosWithOffset p d).1 = getContainerPos p d ∧
    (getContainerPosWithOffset p d).2 = p % d ∧
    0 ≤ (getContainerPosWithOffset p d).2 ∧
    (getContainerPosWithOffset p d).2 < d ∧
    (getContainerPosWithOffset p d).1 * d + (getContainerPosWithOffset p d).2 = p := by
  subst hd
  have hdpos : (0 : Int) < 2 ^ k := by positivity
  have hcast : ((2 : Int) ^ k) = ((2 ^ k : Nat) : Int) := by push_cast; ring
  have hN1 : (1 : Nat) ≤ 2 ^ k := Nat.one_le_two_pow
  have htn : ((2 : Int) ^ k - 1).toNat = 2 ^ k - 1 := by
    rw [hcast]; omega
  have hoff : (getContainerPosWithOffset p (2 ^ k)).2 = p % 2 ^ k := by
    have hnn : (0 : Int) ≤ p % 2 ^ 32 := Int.emod_nonneg p (by positivity)
    simp only [getContainerPosWithOffset]
    rw [htn, Nat.and_pow_two_sub_one_eq_mod, Int.ofNat_eq_natCast,
      Int.natCast_mod, Int.toNat_of_nonneg hnn, Nat.cast_pow]
    norm_num
    exact Int.emod_emod_of_dvd p (pow_dvd_pow 2 hk)
  have hcont : (getContainerPosWithOffset p (2 ^ k)).1 = getContainerPos p (2 ^ k) := rfl
  refine ⟨hcont, hoff, ?_, ?_, ?_⟩
  · rw [hoff]; exact Int.emod_nonneg p (ne_of_gt hdpos)
  · rw [hoff]; exact Int.emod_lt_of_pos p hdpos
  · rw [hcont, hoff, getContainerPos_eq_ediv p _ hdpos]
    have h1 := Int.ediv_add_emod p (2 ^ k)
    linarith [h1, mul_comm (p / 2 ^ k) ((2 : Int) ^ k)]

/-- Witness for C2 at `p = -1`, `d = 16 = 2^4`: the container is `-1` and
the offset is `15`. -/
theorem getContainerPosWithOffset_spec_witness :
    ((16 : Int) = 2 ^ 4 ∧ 4 ≤ 32) ∧
    getContainerPosWithOffset (-1) 16 = (-1, 15) ∧
    ((getContainerPosWithOffset (-1) 16).1 = getContainerPos (-1) 16 ∧
     (getContainerPosWithOffset (-1) 16).2 = (-1 : Int) % 16 ∧
     0 ≤ (getContainerPosWithOffset (-1) 16).2 ∧
     (getContainerPosWithOffset (-1) 16).2 < 16 ∧
     (getContainerPosWithOffset (-1) 16).1 * 16 + (getContainerPosWithOffset (-1) 16).2 = -1) :=
  ⟨⟨by decide, by decide⟩, by decide,
   getContainerPosWithOffset_spec (-1) 16 4 (by decide) (by decide)⟩

/-- C10: the base class `Map::emergeBlock(p, create_blank)` is exactly
`getBlockNoCreateNoEx(p)` for every position and either flag value: the
base map never creates, loads, or generates a block on emerge; only the
`ServerMap` override produces new blocks. -/
theorem map_emergeBlock_eq_getBlockNoCreateNoEx (m : MapState) (p : V3)
    (create_blank : Bool) :
    Map.emergeBlock m p create_blank = getBlockNoCreateNoEx m p := rfl

/-- C5: a `MapEditEvent` whose modified-block set is still empty, when
initialized through `setPositionModified p`, afterwards has exactly the
one block position containing `p`; when initialized through
`setModifiedBlocks`, it has exactly the supplied block positions. -/
theorem mapEditEvent_init_spec {β : Type} (ev : MapEditEvent) (pos : V3)
    (blocks : List (V3 × β)) (h : ev.modified_blocks = []) :
    (ev.setPositionModified pos).modified_blocks = [getNodeBlockPos pos] ∧
    (ev.setModifiedBlocks blocks).modified_blocks = blocks.map Prod.fst := by
  simp [MapEditEvent.setPositionModified, MapEditEvent.setModifiedBlocks, h]

/-- Witness for C5 on a freshly constructed event. -/
theorem mapEditEvent_init_spec_witness :
    ({} : MapEditEvent).modified_blocks = [] ∧
    (({} : MapEditEvent).setPositionModified ⟨-1, 0, 0⟩).modified_blocks =
      [getNodeBlockPos ⟨-1, 0, 0⟩] ∧
    (({} : MapEditEvent).setModifiedBlocks
      [(⟨1, 2, 3⟩, (0 : Nat))]).modified_blocks = [⟨1, 2, 3⟩] :=
  ⟨rfl, mapEditEvent_init_spec {} ⟨-1, 0, 0⟩ [(⟨1, 2, 3⟩, (0 : Nat))] rfl⟩

/-- C6: `setNode` on a position whose containing block is not loaded fails
and is a no-op on the state: it does not create the block, writes no node,
and marks no block modified. -/
theorem setNode_unloaded_noop (m : MapState) (p : V3) (n : MapNode)
    (h : getBlockNoCreateNoEx m (getNodeBlockPos p) = none) :
    Map.setNode m p n = (false, m) := by
  unfold Map.setNode
  unfold getBlockNoCreateNoEx at h
  simp only [h]

/-- Witness for C6: the empty block store. -/
theorem setNode_unloaded_noop_witness :
    getBlockNoCreateNoEx emptyMapState (getNodeBlockPos ⟨1, 2, 3⟩) = none ∧
    Map.setNode emptyMapState ⟨1, 2, 3⟩ ⟨1, 0, 0⟩ = (false, emptyMapState) :=
  ⟨rfl, setNode_unloaded_noop emptyMapState ⟨1, 2, 3⟩ ⟨1, 0, 0⟩ rfl⟩

/-! ## Observer set lemmas (C3) -/

theorem mem_setInsert (x y : Nat) (l : List Nat) :
    y ∈ setInsert x l ↔ y = x ∨ y ∈ l := by
  induction l with
  | nil => simp [setInsert]
  | cons a as ih =>
    unfold setInsert
    by_cases h1 : x < a
    · rw [if_pos h1]
      simp only [List.mem_cons]
    · by_cases h2 : x = a
      · rw [if_neg h1, if_pos h2]
        subst h2
        simp only [List.mem_cons]
        tauto
      · rw [if_neg h1, if_neg h2]
        simp only [List.mem_cons, ih]
        tauto

theorem pairwise_setInsert (x : Nat) (l : List Nat)
    (h : List.Pairwise (· < ·) l) :
    List.Pairwise (· < ·) (setInsert x l) := by
  induction l with
  | nil => simp [setInsert]
  | cons a as ih =>
    rw [List.pairwise_cons] at h
    unfold setInsert
    by_cases h1 : x < a
    · rw [if_pos h1]
      refine List.Pairwise.cons ?_ (List.Pairwise.cons h.1 h.2)
      intro b hb
      rw [List.mem_cons] at hb
      rcases hb with rfl | hb
      · exact h1
      · exact h1.trans (h.1 b hb)
    · rw [if_neg h1]
      by_cases h2 : x = a
      · rw [if_pos h2]
        exact List.Pairwise.cons h.1 h.2
      · rw [if_neg h2]
        refine List.Pairwise.cons ?_ (ih h.2)
        intro b hb
        rw [mem_setInsert] at hb
        rcases hb with rfl | hb
        · omega
        · exact h.1 b hb

theorem registerAll_go (regs s : List Nat) (hs : List.Pairwise (· < ·) s) :
    List.Pairwise (· < ·) (regs.foldl Map.addEventReceiver s) ∧
    (∀ y, y ∈ regs.foldl Map.addEventReceiver s ↔ y ∈ s ∨ y ∈ regs) := by
  induction regs generalizing s with
  | nil => simp [hs]
  | cons r rs ih =>
    have h1 := ih (Map.addEventReceiver s r) (pairwise_setInsert r s hs)
    refine ⟨h1.1, fun y => ?_⟩
    rw [List.foldl_cons, (h1.2 y)]
    unfold Map.addEventReceiver
    rw [mem_setInsert]
    simp
    tauto

/-- C3 counterexample: with observers registered in the order O1 = 5,
O2 = 3, a successful `addNodeWithEvent` invokes them in the observer set's
key order `[3, 5]`, not in registration order `[5, 3]` — O1 is invoked
after O2. -/
theorem addNodeWithEvent_registration_order_counterexample :
    Map.addEventReceiver (Map.addEventReceiver [] 5) 3 = [3, 5] ∧
    (Map.addNodeWithEvent fullMapState
      (Map.addEventReceiver (Map.addEventReceiver [] 5) 3)
      ⟨0, 0, 0⟩ ⟨1, 0, 0⟩).1 = true ∧
    (Map.addNodeWithEvent fullMapState
      (Map.addEventReceiver (Map.addEventReceiver [] 5) 3)
      ⟨0, 0, 0⟩ ⟨1, 0, 0⟩).2.2 = [3, 5] ∧
    ([3, 5] : List Nat) ≠ [5, 3] :=
  ⟨rfl, rfl, rfl, by decide⟩

/-- C3 (amended): a single successful `addNodeWithEvent` dispatches the
event synchronously to every registered observer, each exactly once; the
invocation order is the observer set's ascending key order (registration
order only when registrations happen in ascending key order). -/
theorem addNodeWithEvent_dispatch_spec (regs : List Nat) (m : MapState)
    (p : V3) (n : MapNode)
    (hs : (Map.addNodeWithEvent m (registerAll regs) p n).1 = true) :
    (Map.addNodeWithEvent m (registerAll regs) p n).2.2 = registerAll regs ∧
    List.Pairwise (· < ·) (registerAll regs) ∧
    (∀ r, r ∈ (Map.addNodeWithEvent m (registerAll regs) p n).2.2 ↔ r ∈ regs) := by
  have hreg := registerAll_go regs [] (by simp)
  have htr : (Map.addNodeWithEvent m (registerAll regs) p n).2.2 = registerAll regs := by
    unfold Map.addNodeWithEvent at hs ⊢
    rcases h : Map.setNode m p n with ⟨b, m2⟩
    rw [h] at hs
    cases b
    · simp at hs
    · rfl
  refine ⟨htr, hreg.1, fun r => ?_⟩
  rw [htr]
  have := hreg.2 r
  unfold registerAll
  simp at this
  rw [this]

/-- Witness for C3 (amended) with registrations `[5, 3]` on a map whose
target block is loaded. -/
theorem addNodeWithEvent_dispatch_spec_witness :
    (Map.addNodeWithEvent fullMapState (registerAll [5, 3]) ⟨0, 0, 0⟩ ⟨1, 0, 0⟩).1 = true ∧
    ((Map.addNodeWithEvent fullMapState (registerAll [5, 3]) ⟨0, 0, 0⟩ ⟨1, 0, 0⟩).2.2 =
      registerAll [5, 3] ∧
     List.Pairwise (· < ·) (registerAll [5, 3]) ∧
     (∀ r, r ∈ (Map.addNodeWithEvent fullMapState (registerAll [5, 3])
        ⟨0, 0, 0⟩ ⟨1, 0, 0⟩).2.2 ↔ r ∈ [5, 3])) :=
  ⟨rfl, addNodeWithEvent_dispatch_spec [5, 3] fullMapState ⟨0, 0, 0⟩ ⟨1, 0, 0⟩ rfl⟩

/-- C7: `blitBackAll` with `overwrite_generated = false` on a parented
manipulator succeeds and never changes a node in the block store whose
prior content was not the ignore placeholder. -/
theorem blitBackAll_no_overwrite (vm : MMVManip) (m : MapState)
    (hm : vm.m_map = some m) (q : V3)
    (hq : (mapNodeAt m q).content ≠ CONTENT_IGNORE) :
    ∃ m2 mods, vm.blitBackAll false = some (m2, mods) ∧
      mapNodeAt m2 q = mapNodeAt m q := by
  unfold MMVManip.blitBackAll
  rw [hm]
  refine ⟨_, _, rfl, ?_⟩
  simp only [mapNodeAt, getBlockNoCreateNoEx] at hq ⊢
  by_cases ht : getNodeBlockPos q ∈ vm.m_loaded_blocks.map Prod.fst
  · rw [if_pos ht]
    cases hb : m.blocks (getNodeBlockPos q) with
    | none =>
      rw [hb] at hq
      simp [ignoreNode] at hq
    | some b =>
      rw [hb] at hq
      simp at hq
      simp [hq]
  · rw [if_neg ht]

/-- Witness for C7 on a store whose nodes all have content 1. -/
theorem blitBackAll_no_overwrite_witness :
    vmFixture.m_map = some fullMapState ∧
    (mapNodeAt fullMapState ⟨0, 0, 0⟩).content ≠ CONTENT_IGNORE ∧
    (∃ m2 mods, vmFixture.blitBackAll false = some (m2, mods) ∧
      mapNodeAt m2 ⟨0, 0, 0⟩ = mapNodeAt fullMapState ⟨0, 0, 0⟩) :=
  ⟨rfl, by decide,
   blitBackAll_no_overwrite vmFixture fullMapState rfl ⟨0, 0, 0⟩ (by decide)⟩

/-- C8: `ServerMap::emergeBlock(p, create_blank)` returns the block when
loaded (leaving the store unchanged); otherwise, on disk-load success it
inserts the loaded block as Clean and returns it; on load failure it
inserts and returns a blank ignore-filled Dirty block when `create_blank`
is true, and returns none leaving the store unchanged otherwise.  It never
consults procedural generation. -/
theorem serverMap_emergeBlock_spec (m : MapState)
    (disk : V3 → Option (Int → Int → Int → MapNode)) (p : V3)
    (create_blank : Bool) :
    (∀ b, getBlockNoCreateNoEx m p = some b →
      ServerMap.emergeBlock m disk p create_blank = (some b, m)) ∧
    (getBlockNoCreateNoEx m p = none → ∀ d, disk p = some d →
      ServerMap.emergeBlock m disk p create_blank =
        (some ⟨d, false⟩, insertBlock m p ⟨d, false⟩)) ∧
    (getBlockNoCreateNoEx m p = none → disk p = none → create_blank = true →
      ServerMap.emergeBlock m disk p create_blank =
        (some blankBlock, insertBlock m p blankBlock) ∧
      blankBlock.modified = true ∧
      (∀ x y z, (blankBlock.data x y z).content = CONTENT_IGNORE)) ∧
    (getBlockNoCreateNoEx m p = none → disk p = none → create_blank = false →
      ServerMap.emergeBlock m disk p create_blank = (none, m)) := by
  refine ⟨?_, ?_, ?_, ?_⟩
  · intro b hb
    unfold ServerMap.emergeBlock
    rw [hb]
  · intro hn d hd
    unfold ServerMap.emergeBlock
    rw [hn, hd]
  · intro hn hd hc
    unfold ServerMap.emergeBlock
    rw [hn, hd, hc]
    exact ⟨rfl, rfl, fun x y z => rfl⟩
  · intro hn hd hc
    unfold ServerMap.emergeBlock
    rw [hn, hd, hc]
    rfl

/-- Witness for C8: the loaded case on a fully loaded store. -/
theorem serverMap_emergeBlock_spec_witness :
    getBlockNoCreateNoEx fullMapState ⟨0, 0, 0⟩ = some constBlock ∧
    ServerMap.emergeBlock fullMapState (fun _ => none) ⟨0, 0, 0⟩ true =
      (some constBlock, fullMapState) :=
  ⟨rfl, (serverMap_emergeBlock_spec fullMapState (fun _ => none) ⟨0, 0, 0⟩ true).1
    constBlock rfl⟩

/-- C9: `clone()` copies contents, flags and bookkeeping but drops the map
association (the clone is an orphan); `initialEmerge` and `blitBackAll` on
any orphan are rejected rather than silently ignored; `reparent` makes the
orphan non-orphan again. -/
theorem mmvManip_clone_orphan_spec (vm : MMVManip) (map2 : MapState)
    (bmin bmax : V3) (li og : Bool) :
    ((vm.clone).data = vm.data ∧ (vm.clone).flags = vm.flags ∧
     (vm.clone).m_loaded_blocks = vm.m_loaded_blocks ∧
     (vm.clone).pmin = vm.pmin ∧ (vm.clone).pmax = vm.pmax ∧
     (vm.clone).m_is_dirty = vm.m_is_dirty) ∧
    (vm.clone).isOrphan = true ∧
    (∀ w : MMVManip, w.isOrphan = true →
      w.initialEmerge bmin bmax li = none ∧ w.blitBackAll og = none) ∧
    ((vm.clone).reparent map2).isOrphan = false := by
  refine ⟨⟨rfl, rfl, rfl, rfl, rfl, rfl⟩, rfl, ?_, rfl⟩
  intro w hw
  have hmap : w.m_map = none := by
    unfold MMVManip.isOrphan at hw
    exact Option.isNone_iff_eq_none.mp hw
  constructor
  · unfold MMVManip.initialEmerge
    rw [hmap]
  · unfold MMVManip.blitBackAll
    rw [hmap]

/-- Witness for C9 on the concrete fixture manipulator. -/
theorem mmvManip_clone_orphan_spec_witness :
    (vmFixture.clone).isOrphan = true ∧
    (vmFixture.clone).initialEmerge ⟨0, 0, 0⟩ ⟨0, 0, 0⟩ true = none ∧
    (vmFixture.clone).blitBackAll true = none := by
  have T := mmvManip_clone_orphan_spec vmFixture fullMapState ⟨0, 0, 0⟩ ⟨0, 0, 0⟩ true true
  exact ⟨T.2.1, (T.2.2.1 vmFixture.clone T.2.1).1, (T.2.2.1 vmFixture.clone T.2.1).2⟩

/-! ## Traversal lemmas (C4) -/

theorem mem_intRange {lo hi x : Int} :
    x ∈ intRange lo hi ↔ lo ≤ x ∧ x ≤ hi := by
  unfold intRange
  simp only [List.mem_map, List.mem_range]
  constructor
  · rintro ⟨i, h1, rfl⟩
    omega
  · intro h
    exact ⟨(x - lo).toNat, by omega, by omega⟩

theorem nodup_intRange (lo hi : Int) : (intRange lo hi).Nodup := by
  unfold intRange
  refine List.Nodup.map ?_ (List.nodup_range _)
  intro a b hab
  dsimp only at hab
  omega

theorem rangelim_clamp (d : Int) :
    rangelim d 0 (16 - 1) = max 0 (min d 15) := by
  unfold rangelim
  split_ifs <;> omega

theorem takeThrough_append {α : Type} (f : α → Bool) (l : List α) :
    ∃ t, l = takeThrough f l ++ t := by
  induction l with
  | nil => exact ⟨[], rfl⟩
  | cons a as ih =>
    by_cases h : f a
    · obtain ⟨t, ht⟩ := ih
      refine ⟨t, ?_⟩
      unfold takeThrough
      rw [if_pos h, List.cons_append, ← ht]
    · refine ⟨as, ?_⟩
      unfold takeThrough
      rw [if_neg h, List.singleton_append]

theorem takeThrough_dropLast {α : Type} (f : α → Bool) (l : List α) :
    ∀ x ∈ (takeThrough f l).dropLast, f x = true := by
  induction l with
  | nil => simp [takeThrough]
  | cons a as ih =>
    by_cases h : f a
    · unfold takeThrough
      rw [if_pos h]
      cases hT : takeThrough f as with
      | nil => simp
      | cons b bs =>
        intro x hx
        rw [List.dropLast_cons₂] at hx
        rcases List.mem_cons.mp hx with rfl | hx2
        · exact h
        · exact ih x (hT ▸ hx2)
    · unfold takeThrough
      rw [if_neg h]
      simp

theorem takeThrough_eq_of_all {α : Type} (f : α → Bool) (l : List α)
    (h : ∀ x ∈ l, f x = true) : takeThrough f l = l := by
  induction l with
  | nil => rfl
  | cons a as ih =>
    unfold takeThrough
    rw [if_pos (h a (List.mem_cons_self a as)), ih]
    intro x hx
    exact h x (List.mem_cons_of_mem a hx)

theorem getNodeBlockPos_eq (p : V3) :
    getNodeBlockPos p = ⟨p.X / 16, p.Y / 16, p.Z / 16⟩ := by
  unfold getNodeBlockPos MAP_BLOCKSIZE
  rw [getContainerPos_16, getContainerPos_16, getContainerPos_16]

theorem blockCell_node_eq (m : MapState) (bx b_y bz xb yb zb : Int)
    (hxb : 0 ≤ xb ∧ xb ≤ 15) (hyb : 0 ≤ yb ∧ yb ≤ 15) (hzb : 0 ≤ zb ∧ zb ≤ 15) :
    (match getBlockNoCreateNoEx m ⟨bx, b_y, bz⟩ with
     | some b => b.data xb yb zb
     | none => ignoreNode) =
    mapNodeAt m ⟨bx * 16 + xb, b_y * 16 + yb, bz * 16 + zb⟩ := by
  have hbp : getNodeBlockPos ⟨bx * 16 + xb, b_y * 16 + yb, bz * 16 + zb⟩ = ⟨bx, b_y, bz⟩ := by
    rw [getNodeBlockPos_eq]
    dsimp only
    simp only [V3.mk.injEq]
    refine ⟨?_, ?_, ?_⟩ <;> omega
  simp only [mapNodeAt, MAP_BLOCKSIZE]
  rw [hbp]
  cases h : getBlockNoCreateNoEx m ⟨bx, b_y, bz⟩ with
  | none => rfl
  | some b =>
    dsimp only
    have e1 : bx * 16 + xb - bx * 16 = xb := by ring
    have e2 : b_y * 16 + yb - b_y * 16 = yb := by ring
    have e3 : bz * 16 + zb - bz * 16 = zb := by ring
    rw [e1, e2, e3]

theorem blockCells_proj (m : MapState) (minp maxp : V3) (bx b_y bz : Int)
    (pr : V3 × MapNode) (h : pr ∈ blockCells m minp maxp bx b_y bz) :
    pr.1.X / 16 = bx ∧ pr.1.Y / 16 = b_y ∧ pr.1.Z / 16 = bz := by
  unfold blockCells at h
  simp only [List.mem_flatMap, List.mem_map, mem_intRange, MAP_BLOCKSIZE,
    rangelim_clamp] at h
  obtain ⟨zb, hzb, yb, hyb, xb, hxb, rfl⟩ := h
  dsimp only
  refine ⟨?_, ?_, ?_⟩ <;> omega

theorem mem_blockCells_iff (m : MapState) (minp maxp : V3) (bx b_y bz : Int)
    (hbx1 : minp.X / 16 ≤ bx) (hbx2 : bx ≤ maxp.X / 16)
    (hby1 : minp.Y / 16 ≤ b_y) (hby2 : b_y ≤ maxp.Y / 16)
    (hbz1 : minp.Z / 16 ≤ bz) (hbz2 : bz ≤ maxp.Z / 16)
    (pr : V3 × MapNode) :
    pr ∈ blockCells m minp maxp bx b_y bz ↔
      (inBox minp maxp pr.1 ∧ pr.1.X / 16 = bx ∧ pr.1.Y / 16 = b_y ∧
       pr.1.Z / 16 = bz ∧ pr.2 = mapNodeAt m pr.1) := by
  obtain ⟨⟨pX, pY, pZ⟩, nd⟩ := pr
  unfold blockCells
  simp only [List.mem_flatMap, List.mem_map, mem_intRange, MAP_BLOCKSIZE,
    rangelim_clamp, inBox]
  constructor
  · rintro ⟨zb, hzb, yb, hyb, xb, hxb, heq⟩
    rw [Prod.mk.injEq, V3.mk.injEq] at heq
    obtain ⟨⟨rfl, rfl, rfl⟩, rfl⟩ := heq
    have hnode := blockCell_node_eq m bx b_y bz xb yb zb
      (by omega) (by omega) (by omega)
    refine ⟨⟨?_, ?_, ?_, ?_, ?_, ?_⟩, ?_, ?_, ?_, ?_⟩
    · omega
    · omega
    · omega
    · omega
    · omega
    · omega
    · omega
    · omega
    · omega
    · exact hnode
  · rintro ⟨⟨h1, h2, h3, h4, h5, h6⟩, hX, hY, hZ, hnd⟩
    refine ⟨pZ - bz * 16, ⟨by omega, by omega⟩, pY - b_y * 16, ⟨by omega, by omega⟩,
      pX - bx * 16, ⟨by omega, by omega⟩, ?_⟩
    have e1 : bx * 16 + (pX - bx * 16) = pX := by ring
    have e2 : b_y * 16 + (pY - b_y * 16) = pY := by ring
    have e3 : bz * 16 + (pZ - bz * 16) = pZ := by ring
    have hnode := blockCell_node_eq m bx b_y bz (pX - bx * 16) (pY - b_y * 16)
      (pZ - bz * 16) (by omega) (by omega) (by omega)
    rw [e1, e2, e3] at hnode ⊢
    rw [Prod.mk.injEq]
    exact ⟨rfl, by rw [hnd]; exact hnode⟩

theorem nodup_blockCells (m : MapState) (minp maxp : V3) (bx b_y bz : Int) :
    (blockCells m minp maxp bx b_y bz).Nodup := by
  unfold blockCells
  simp only [MAP_BLOCKSIZE]
  rw [List.nodup_flatMap]
  constructor
  · intro zb _
    rw [List.nodup_flatMap]
    constructor
    · intro yb _
      refine List.Nodup.map ?_ (nodup_intRange _ _)
      intro a b hab
      have := congrArg (fun pr : V3 × MapNode => pr.1.X) hab
      dsimp only at this
      omega
    · refine List.Pairwise.imp ?_ (nodup_intRange _ _)
      intro a b hne pr h1 h2
      simp only [List.mem_map, mem_intRange] at h1 h2
      obtain ⟨x1, hx1, heq1⟩ := h1
      obtain ⟨x2, hx2, heq2⟩ := h2
      have e1 := congrArg (fun pr : V3 × MapNode => pr.1.Y) heq1
      have e2 := congrArg (fun pr : V3 × MapNode => pr.1.Y) heq2
      dsimp only at e1 e2
      omega
  · refine List.Pairwise.imp ?_ (nodup_intRange _ _)
    intro a b hne pr h1 h2
    simp only [List.mem_flatMap, List.mem_map, mem_intRange] at h1 h2
    obtain ⟨y1, hy1, x1, hx1, heq1⟩ := h1
    obtain ⟨y2, hy2, x2, hx2, heq2⟩ := h2
    have e1 := congrArg (fun pr : V3 × MapNode => pr.1.Z) heq1
    have e2 := congrArg (fun pr : V3 × MapNode => pr.1.Z) heq2
    dsimp only at e1 e2
    omega

theorem mem_forEachSeq (m : MapState) (minp maxp : V3) (pr : V3 × MapNode) :
    pr ∈ forEachSeq m minp maxp ↔
      (inBox minp maxp pr.1 ∧ pr.2 = mapNodeAt m pr.1) := by
  unfold forEachSeq
  simp only [List.mem_flatMap, mem_intRange, getNodeBlockPos_eq]
  constructor
  · rintro ⟨bz, hbz, bx, hbx, b_y, hby, hcell⟩
    rw [mem_blockCells_iff m minp maxp bx b_y bz hbx.1 hbx.2 hby.1 hby.2
      hbz.1 hbz.2] at hcell
    exact ⟨hcell.1, hcell.2.2.2.2⟩
  · rintro ⟨hbox, hnd⟩
    obtain ⟨h1, h2, h3, h4, h5, h6⟩ := hbox
    refine ⟨pr.1.Z / 16, ⟨by omega, by omega⟩, pr.1.X / 16, ⟨by omega, by omega⟩,
      pr.1.Y / 16, ⟨by omega, by omega⟩, ?_⟩
    rw [mem_blockCells_iff m minp maxp (pr.1.X / 16) (pr.1.Y / 16) (pr.1.Z / 16)
      (by omega) (by omega) (by omega) (by omega) (by omega) (by omega)]
    exact ⟨⟨h1, h2, h3, h4, h5, h6⟩, rfl, rfl, rfl, hnd⟩

theorem nodup_forEachSeq (m : MapState) (minp maxp : V3) :
    (forEachSeq m minp maxp).Nodup := by
  unfold forEachSeq
  rw [List.nodup_flatMap]
  constructor
  · intro bz _
    rw [List.nodup_flatMap]
    constructor
    · intro bx _
      rw [List.nodup_flatMap]
      refine ⟨fun b_y _ => nodup_blockCells m minp maxp bx b_y bz, ?_⟩
      refine List.Pairwise.imp ?_ (nodup_intRange _ _)
      intro a b hne pr hp1 hp2
      have p1 := blockCells_proj m minp maxp bx a bz pr hp1
      have p2 := blockCells_proj m minp maxp bx b bz pr hp2
      omega
    · refine List.Pairwise.imp ?_ (nodup_intRange _ _)
      intro a b hne pr hp1 hp2
      simp only [List.mem_flatMap] at hp1 hp2
      obtain ⟨y1, hy1, hc1⟩ := hp1
      obtain ⟨y2, hy2, hc2⟩ := hp2
      have p1 := blockCells_proj m minp maxp a y1 bz pr hc1
      have p2 := blockCells_proj m minp maxp b y2 bz pr hc2
      omega
  · refine List.Pairwise.imp ?_ (nodup_intRange _ _)
    intro a b hne pr hp1 hp2
    simp only [List.mem_flatMap] at hp1 hp2
    obtain ⟨x1, hx1, y1, hy1, hc1⟩ := hp1
    obtain ⟨x2, hx2, y2, hy2, hc2⟩ := hp2
    have p1 := blockCells_proj m minp maxp x1 y1 a pr hc1
    have p2 := blockCells_proj m minp maxp x2 y2 b pr hc2
    omega

theorem nodup_forEachSeq_fst (m : MapState) (minp maxp : V3) :
    ((forEachSeq m minp maxp).map Prod.fst).Nodup := by
  refine List.Nodup.map_on ?_ (nodup_forEachSeq m minp maxp)
  intro x hx y hy hxy
  have hx2 := ((mem_forEachSeq m minp maxp x).mp hx).2
  have hy2 := ((mem_forEachSeq m minp maxp y).mp hy).2
  obtain ⟨x1, x2⟩ := x
  obtain ⟨y1, y2⟩ := y
  dsimp only at hxy hx2 hy2
  subst hxy
  rw [Prod.mk.injEq]
  exact ⟨rfl, by rw [hx2, hy2]⟩

/-- C4: for `minp ≤ maxp`, `forEachNodeInArea` runs over exactly the
positions of the inclusive box `[minp, maxp]`, each exactly once (the full
traversal sequence contains every box position once and nothing else);
every visited pair carries the stored node, with the ignore placeholder
for positions whose block is not loaded; the callback is invoked on a
prefix of that sequence, every invocation except possibly the last
returned true, and if the callback never returns false the whole box is
visited. -/
theorem forEachNodeInArea_spec (m : MapState) (minp maxp : V3)
    (f : V3 → MapNode → Bool)
    (hx : minp.X ≤ maxp.X) (hy : minp.Y ≤ maxp.Y) (hz : minp.Z ≤ maxp.Z) :
    (∀ p : V3, ((forEachSeq m minp maxp).map Prod.fst).count p =
      if inBox minp maxp p then 1 else 0) ∧
    (∀ pr ∈ forEachSeq m minp maxp, pr.2 = mapNodeAt m pr.1) ∧
    (∃ t, forEachSeq m minp maxp = Map.forEachNodeInArea m minp maxp f ++ t) ∧
    (∀ pr ∈ (Map.forEachNodeInArea m minp maxp f).dropLast, f pr.1 pr.2 = true) ∧
    ((∀ pr ∈ forEachSeq m minp maxp, f pr.1 pr.2 = true) →
      Map.forEachNodeInArea m minp maxp f = forEachSeq m minp maxp) := by
  refine ⟨?_, ?_, ?_, ?_, ?_⟩
  · intro p
    rw [List.count_eq_of_nodup (nodup_forEachSeq_fst m minp maxp)]
    refine if_congr ?_ rfl rfl
    simp only [List.mem_map]
    constructor
    · rintro ⟨pr, hpr, rfl⟩
      exact ((mem_forEachSeq m minp maxp pr).mp hpr).1
    · intro hb
      exact ⟨(p, mapNodeAt m p), (mem_forEachSeq m minp maxp _).mpr ⟨hb, rfl⟩, rfl⟩
  · intro pr hpr
    exact ((mem_forEachSeq m minp maxp pr).mp hpr).2
  · unfold Map.forEachNodeInArea
    exact takeThrough_append _ _
  · unfold Map.forEachNodeInArea
    exact fun pr h => takeThrough_dropLast _ _ pr h
  · intro h
    unfold Map.forEachNodeInArea
    exact takeThrough_eq_of_all _ _ (fun x hx2 => h x hx2)

/-- Witness for C4 on the one-position box `[0,0,0]` over the empty store
with a callback that never stops. -/
theorem forEachNodeInArea_spec_witness :
    ((V3.mk 0 0 0).X ≤ (V3.mk 0 0 0).X ∧ (V3.mk 0 0 0).Y ≤ (V3.mk 0 0 0).Y ∧
     (V3.mk 0 0 0).Z ≤ (V3.mk 0 0 0).Z) ∧
    ((∀ p : V3, ((forEachSeq emptyMapState ⟨0, 0, 0⟩ ⟨0, 0, 0⟩).map Prod.fst).count p =
        if inBox ⟨0, 0, 0⟩ ⟨0, 0, 0⟩ p then 1 else 0) ∧
     (∀ pr ∈ forEachSeq emptyMapState ⟨0, 0, 0⟩ ⟨0, 0, 0⟩,
        pr.2 = mapNodeAt emptyMapState pr.1) ∧
     (∃ t, forEachSeq emptyMapState ⟨0, 0, 0⟩ ⟨0, 0, 0⟩ =
        Map.forEachNodeInArea emptyMapState ⟨0, 0, 0⟩ ⟨0, 0, 0⟩ (fun _ _ => true) ++ t) ∧
     (∀ pr ∈ (Map.forEachNodeInArea emptyMapState ⟨0, 0, 0⟩ ⟨0, 0, 0⟩
        (fun _ _ => true)).dropLast, (fun _ _ => true) pr.1 pr.2 = true) ∧
     ((∀ pr ∈ forEachSeq emptyMapState ⟨0, 0, 0⟩ ⟨0, 0, 0⟩,
        (fun _ _ => true) pr.1 pr.2 = true) →
      Map.forEachNodeInArea emptyMapState ⟨0, 0, 0⟩ ⟨0, 0, 0⟩ (fun _ _ => true) =
        forEachSeq emptyMapState ⟨0, 0, 0⟩ ⟨0, 0, 0⟩)) :=
  ⟨⟨by decide, by decide, by decide⟩,
   forEachNodeInArea_spec emptyMapState ⟨0, 0, 0⟩ ⟨0, 0, 0⟩ (fun _ _ => true)
     (by decide) (by decide) (by decide)⟩
